import Mathlib

/-!
Shallow embedding of `src/lib/redis/redisconnection.cpp` (RedisConnection):
the Writer loop's per-item processing (`WriteLoop`), the Reader loop's
per-entry processing (`ReadLoop`), the `Start`/`Connect` lifecycle, and the
shared bookkeeping state (`m_Queues.FutureResponseActions`,
`m_Queues.ReplyPromises`, `m_Queues.RepliesPromises`, `m_QueuedReads`).

Queries and replies are opaque to the bookkeeping logic, so they are
modelled as natural numbers.  The outcomes of the I/O primitives
`WriteOne` / `ReadOne` (which may throw) are supplied by oracles
`Nat → WOutcome` / `Nat → ROutcome` indexed by a running call counter, so
that a step function records exactly how many I/O calls it made.
Exceptions are either the cooperative-cancellation signal
`boost::coroutines::detail::forced_unwind` or an ordinary error.
-/

namespace Redis

/-- A query, opaque to the pipeline bookkeeping. -/
abbrev Query := Nat

/-- A decoded RESP reply, opaque to the pipeline bookkeeping. -/
abbrev Reply := Nat

/-- An exception: either the cooperative task-cancellation signal
(`boost::coroutines::detail::forced_unwind`) or an ordinary error,
identified by an opaque code. -/
inductive Ex
  | forcedUnwind
  | err (code : Nat)
deriving DecidableEq, Repr

/-- Outcome of one `WriteOne` call: return normally or throw. -/
inductive WOutcome
  | ok
  | throwEx (e : Ex)
deriving DecidableEq, Repr

/-- Outcome of one `ReadOne` call: return a reply or throw. -/
inductive ROutcome
  | ok (r : Reply)
  | throwEx (e : Ex)
deriving DecidableEq, Repr

/-- The `RedisConnection::ResponseAction` enum. -/
inductive ResponseAction
  | Ignore
  | Deliver
  | DeliverBulk
deriving DecidableEq, Repr

/-- The `RedisConnection::FutureResponseAction` record `{Amount, Action}`. -/
structure FutureResponseAction where
  Amount : Nat
  Action : ResponseAction
deriving DecidableEq, Repr

/-- Observable effects of a step: log lines and completion-handle
(`std::promise`) signals.  Handles are identified by numbers. -/
inductive Event
  | logSendError (e : Ex)
  | logIgnoreError (e : Ex)
  | logConnectError (e : Ex)
  | promiseExn (h : Nat) (e : Ex)
  | promiseValue (h : Nat) (r : Reply)
  | promiseValues (h : Nat) (rs : List Reply)
deriving DecidableEq, Repr

/-- The exception carried by an event, if any. -/
def eventEx : Event → Option Ex
  | Event.logSendError e => some e
  | Event.logIgnoreError e => some e
  | Event.logConnectError e => some e
  | Event.promiseExn _ e => some e
  | Event.promiseValue _ _ => none
  | Event.promiseValues _ _ => none

/-- The shared bookkeeping queues of `RedisConnection::m_Queues` that the two
loops exchange: `FutureResponseActions` (head = front of the FIFO),
`ReplyPromises` (pending single-reply completion handles) and
`RepliesPromises` (pending bulk-reply completion handles). -/
structure Queues where
  FutureResponseActions : List FutureResponseAction
  ReplyPromises : List Nat
  RepliesPromises : List Nat
deriving DecidableEq, Repr

/-- Connection-internal state touched by a Writer step: the bookkeeping
queues and the `m_QueuedReads` level-triggered flag. -/
structure ConnState where
  queues : Queues
  queuedReads : Bool
deriving DecidableEq, Repr

/-- The initial state: all queues empty, `m_QueuedReads` unsignaled. -/
def initState : ConnState := ⟨⟨[], [], []⟩, false⟩

/-- A `RedisConnection::WriteQueueItem`: exactly one of the four shapes is
populated by the submission API.  Awaiting variants carry the identifier of
their completion handle. -/
inductive WriteQueueItem
  | fireAndForgetQuery (q : Query)
  | fireAndForgetQueries (qs : List Query)
  | getResultOfQuery (q : Query) (h : Nat)
  | getResultsOfQueries (qs : List Query) (h : Nat)
deriving DecidableEq, Repr

/-- The append-or-extend idiom of `WriteLoop` on the bookkeeping FIFO:
`if (FutureResponseActions.empty() || back().Action != act) emplace({n, act})
else back().Amount += n`, written as structural recursion to the back of
the list (head = front of the FIFO). -/
def appendOrExtend : List FutureResponseAction → Nat → ResponseAction → List FutureResponseAction
  | [], n, act => [⟨n, act⟩]
  | [back], n, act =>
      if back.Action = act then [⟨back.Amount + n, act⟩] else [back, ⟨n, act⟩]
  | x :: y :: rest, n, act => x :: appendOrExtend (y :: rest) n act

/-- Sending a list of queries with `WriteOne` in a single `try` block:
returns the I/O counter after the attempts, the number of successfully sent
queries, and the first thrown exception, if any (which aborts the loop). -/
def sendAll (w : Nat → WOutcome) (c : Nat) : List Query → Nat × Nat × Option Ex
  | [] => (c, 0, none)
  | _q :: qs =>
      match w c with
      | WOutcome.ok =>
          match sendAll w (c + 1) qs with
          | (c2, k, r) => (c2, k + 1, r)
      | WOutcome.throwEx e => (c + 1, 0, some e)

/-- One Writer-loop iteration body of `RedisConnection::WriteLoop` on a
single popped `WriteQueueItem`.  Returns the continuation state (or the
propagated exception when a `forced_unwind` is rethrown and escapes the
loop), the emitted events, and the I/O counter after the step.  Mirrors the
source's catch ladders: `forced_unwind` is rethrown, other exceptions are
logged (fire-and-forget variants) or routed to the item's completion handle
(awaiting variants), followed by `continue`. -/
def writeItem (w : Nat → WOutcome) (c : Nat) (st : ConnState) :
    WriteQueueItem → Except Ex ConnState × List Event × Nat
  | WriteQueueItem.fireAndForgetQuery _q =>
      match w c with
      | WOutcome.ok =>
          (Except.ok { st with
              queues := { st.queues with
                FutureResponseActions :=
                  appendOrExtend st.queues.FutureResponseActions 1 ResponseAction.Ignore },
              queuedReads := true }, [], c + 1)
      | WOutcome.throwEx Ex.forcedUnwind => (Except.error Ex.forcedUnwind, [], c + 1)
      | WOutcome.throwEx (Ex.err e) =>
          (Except.ok st, [Event.logSendError (Ex.err e)], c + 1)
  | WriteQueueItem.fireAndForgetQueries qs =>
      match sendAll w c qs with
      | (c2, _k, none) =>
          (Except.ok { st with
              queues := { st.queues with
                FutureResponseActions :=
                  appendOrExtend st.queues.FutureResponseActions qs.length ResponseAction.Ignore },
              queuedReads := true }, [], c2)
      | (c2, _k, some Ex.forcedUnwind) => (Except.error Ex.forcedUnwind, [], c2)
      | (c2, _k, some (Ex.err e)) =>
          (Except.ok st, [Event.logSendError (Ex.err e)], c2)
  | WriteQueueItem.getResultOfQuery _q h =>
      match w c with
      | WOutcome.ok =>
          (Except.ok { st with
              queues := { st.queues with
                ReplyPromises := st.queues.ReplyPromises ++ [h],
                FutureResponseActions :=
                  appendOrExtend st.queues.FutureResponseActions 1 ResponseAction.Deliver },
              queuedReads := true }, [], c + 1)
      | WOutcome.throwEx Ex.forcedUnwind => (Except.error Ex.forcedUnwind, [], c + 1)
      | WOutcome.throwEx (Ex.err e) =>
          (Except.ok st, [Event.promiseExn h (Ex.err e)], c + 1)
  | WriteQueueItem.getResultsOfQueries qs h =>
      match sendAll w c qs with
      | (c2, _k, none) =>
          (Except.ok { st with
              queues := { st.queues with
                RepliesPromises := st.queues.RepliesPromises ++ [h],
                FutureResponseActions :=
                  st.queues.FutureResponseActions ++ [⟨qs.length, ResponseAction.DeliverBulk⟩] },
              queuedReads := true }, [], c2)
      | (c2, _k, some Ex.forcedUnwind) => (Except.error Ex.forcedUnwind, [], c2)
      | (c2, _k, some (Ex.err e)) =>
          (Except.ok st, [Event.promiseExn h (Ex.err e)], c2)

/-- How the Reader loop exits abnormally: a rethrown `forced_unwind`, an
uncaught `std::future_error` thrown by signaling an already-satisfied
promise, or undefined behaviour from `front()` on an empty promise queue. -/
inductive LoopExit
  | unwind
  | futureError
  | popEmpty
deriving DecidableEq, Repr

/-- The `Ignore` arm of `ReadLoop`: one `try` block wrapping the whole
`for (auto i (item.Amount); i; --i) ReadOne(yc);` loop.  Returns the first
thrown exception (if any) and the I/O counter after the attempts. -/
def ignoreReads (rdo : Nat → ROutcome) (c : Nat) : Nat → Option Ex × Nat
  | 0 => (none, c)
  | n + 1 =>
      match rdo c with
      | ROutcome.ok _ => ignoreReads rdo (c + 1) n
      | ROutcome.throwEx e => (some e, c + 1)

/-- The `Deliver` arm of `ReadLoop`: each of the `Amount` iterations pops
one promise from `ReplyPromises`, reads one reply and signals that promise
with the value, or with the exception on a non-cancellation failure
(`continue` keeps the per-reply loop going).  Returns the remaining
promises on normal completion. -/
def deliverReads (rdo : Nat → ROutcome) (c : Nat) (promises : List Nat) :
    Nat → Except LoopExit (List Nat) × List Event × Nat
  | 0 => (Except.ok promises, [], c)
  | n + 1 =>
      match promises with
      | [] => (Except.error LoopExit.popEmpty, [], c)
      | h :: rest =>
          match rdo c with
          | ROutcome.ok rep =>
              match deliverReads rdo (c + 1) rest n with
              | (res, evs, c2) => (res, Event.promiseValue h rep :: evs, c2)
          | ROutcome.throwEx Ex.forcedUnwind => (Except.error LoopExit.unwind, [], c + 1)
          | ROutcome.throwEx (Ex.err e) =>
              match deliverReads rdo (c + 1) rest n with
              | (res, evs, c2) => (res, Event.promiseExn h (Ex.err e) :: evs, c2)

/-- The read loop of the `DeliverBulk` arm of `ReadLoop`: accumulate
replies; on a non-cancellation failure call `promise.set_exception` and
`continue` with the remaining reads.  `sat` records whether the promise is
already satisfied; `set_exception` on a satisfied promise throws
`std::future_error`, which escapes the loop.  Returns the final
satisfied-flag and accumulated replies on normal completion. -/
def bulkReads (rdo : Nat → ROutcome) (c : Nat) (h : Nat) (sat : Bool) (acc : List Reply) :
    Nat → Except LoopExit (Bool × List Reply) × List Event × Nat
  | 0 => (Except.ok (sat, acc), [], c)
  | n + 1 =>
      match rdo c with
      | ROutcome.ok rep => bulkReads rdo (c + 1) h sat (acc ++ [rep]) n
      | ROutcome.throwEx Ex.forcedUnwind => (Except.error LoopExit.unwind, [], c + 1)
      | ROutcome.throwEx (Ex.err e) =>
          if sat then (Except.error LoopExit.futureError, [], c + 1)
          else
            match bulkReads rdo (c + 1) h true acc n with
            | (res, evs, c2) => (res, Event.promiseExn h (Ex.err e) :: evs, c2)

/-- One Reader-loop iteration body of `RedisConnection::ReadLoop`: pop the
front `FutureResponseAction` entry (the source pops the whole entry before
the switch) and dispatch on its action.  In the `Ignore` arm, a
non-cancellation failure is logged and `continue`s the OUTER while loop, so
the remaining reads of the entry are abandoned.  In the `DeliverBulk` arm
the promise is popped first; after the reads, `promise.set_value` throws
`std::future_error` when the promise was already satisfied by
`set_exception`. -/
def readStep (rdo : Nat → ROutcome) (c : Nat) (q : Queues) :
    Except LoopExit Queues × List Event × Nat :=
  match q.FutureResponseActions with
  | [] => (Except.ok q, [], c)
  | item :: rest =>
      match item.Action with
      | ResponseAction.Ignore =>
          match ignoreReads rdo c item.Amount with
          | (none, c2) => (Except.ok { q with FutureResponseActions := rest }, [], c2)
          | (some Ex.forcedUnwind, c2) => (Except.error LoopExit.unwind, [], c2)
          | (some (Ex.err e), c2) =>
              (Except.ok { q with FutureResponseActions := rest },
               [Event.logIgnoreError (Ex.err e)], c2)
      | ResponseAction.Deliver =>
          match deliverReads rdo c q.ReplyPromises item.Amount with
          | (Except.ok promisesLeft, evs, c2) =>
              (Except.ok { q with FutureResponseActions := rest, ReplyPromises := promisesLeft },
               evs, c2)
          | (Except.error e, evs, c2) => (Except.error e, evs, c2)
      | ResponseAction.DeliverBulk =>
          match q.RepliesPromises with
          | [] => (Except.error LoopExit.popEmpty, [], c)
          | h :: rps =>
              match bulkReads rdo c h false [] item.Amount with
              | (Except.ok (sat, acc), evs, c2) =>
                  if sat then (Except.error LoopExit.futureError, evs, c2)
                  else
                    (Except.ok { q with FutureResponseActions := rest, RepliesPromises := rps },
                     evs ++ [Event.promiseValues h acc], c2)
              | (Except.error e, evs, c2) => (Except.error e, evs, c2)

/-- An interleaving event of the two loops on the shared state: the Writer
processes one popped submission item, or the Reader processes the front
bookkeeping entry. -/
inductive SysEvent
  | write (item : WriteQueueItem)
  | read
deriving DecidableEq, Repr

/-- Run an interleaving of Writer and Reader steps from a state, threading
the two I/O counters; `none` when a loop exits abnormally. -/
def runTrace (w : Nat → WOutcome) (rdo : Nat → ROutcome) :
    Nat → Nat → ConnState → List SysEvent → Option ConnState
  | _, _, st, [] => some st
  | wc, rc, st, SysEvent.write item :: rest =>
      match writeItem w wc st item with
      | (Except.ok st2, _, wc2) => runTrace w rdo wc2 rc st2 rest
      | (Except.error _, _, _) => none
  | wc, rc, st, SysEvent.read :: rest =>
      match readStep rdo rc st.queues with
      | (Except.ok q2, _, rc2) => runTrace w rdo wc rc2 { st with queues := q2 } rest
      | (Except.error _, _, _) => none

/-- Sum of the amounts of the `Deliver` entries of the bookkeeping FIFO. -/
def deliverSum (fa : List FutureResponseAction) : Nat :=
  (fa.map (fun e => if e.Action = ResponseAction.Deliver then e.Amount else 0)).sum

/-- Two adjacent bookkeeping entries are acceptable unless they are both
`Ignore` or both `Deliver` (those must have been coalesced). -/
def pairOK (a b : FutureResponseAction) : Bool :=
  !(a.Action = b.Action &&
    (a.Action = ResponseAction.Ignore || a.Action = ResponseAction.Deliver))

/-- No two adjacent entries of the bookkeeping FIFO are both `Ignore` or
both `Deliver`. -/
def coalescedB : List FutureResponseAction → Bool
  | [] => true
  | [_] => true
  | a :: b :: rest => pairOK a b && coalescedB (b :: rest)

/-- A trace event is well formed when its bulk submissions carry a
non-empty query list. -/
def wfEvent : SysEvent → Bool
  | SysEvent.write (WriteQueueItem.fireAndForgetQueries qs) => !qs.isEmpty
  | SysEvent.write (WriteQueueItem.getResultsOfQueries qs _) => !qs.isEmpty
  | _ => true

/-- Lifecycle state of a connection: the three atomic booleans
`m_Started`, `m_Connecting`, `m_Connected`, and counters of how many
Reader loops, Writer loops and `Connect` coroutines were spawned. -/
structure LifecycleState where
  started : Bool
  connecting : Bool
  connected : Bool
  readLoops : Nat
  writeLoops : Nat
  connectAttempts : Nat
deriving DecidableEq, Repr

/-- The freshly constructed inert connection. -/
def initLifecycle : LifecycleState := ⟨false, false, false, 0, 0, 0⟩

/-- `RedisConnection::Start`: `if (!m_Started.exchange(true))` spawn
ReadLoop and WriteLoop; `if (!m_Connecting.exchange(true))` spawn
`Connect`. -/
def start (st : LifecycleState) : LifecycleState :=
  let st1 :=
    if st.started then st
    else { st with
      started := true, readLoops := st.readLoops + 1, writeLoops := st.writeLoops + 1 }
  if st1.connecting then st1
  else { st1 with connecting := true, connectAttempts := st1.connectAttempts + 1 }

/-- How a `Connect` coroutine finishes: the transport is established, the
attempt throws an ordinary error, or a `forced_unwind` cancels it. -/
inductive ConnectOutcome
  | success
  | failure (code : Nat)
  | cancelled
deriving DecidableEq, Repr

/-- The body of `RedisConnection::Connect`: on success set `m_Connected`;
a `forced_unwind` is rethrown; any other exception is logged.  The `Defer`
runs on every exit path and stores `m_Connected` into `m_Connecting`.
Returns the state, the propagated exception (if any) and the log events. -/
def connectRun (o : ConnectOutcome) (st : LifecycleState) :
    LifecycleState × Option Ex × List Event :=
  match o with
  | ConnectOutcome.success =>
      let st1 := { st with connected := true }
      ({ st1 with connecting := st1.connected }, none, [])
  | ConnectOutcome.failure code =>
      ({ st with connecting := st.connected }, none, [Event.logConnectError (Ex.err code)])
  | ConnectOutcome.cancelled =>
      ({ st with connecting := st.connected }, some Ex.forcedUnwind, [])

/-- An externally observable lifecycle event: a call to `Start`, or a
pending `Connect` coroutine finishing with some outcome. -/
inductive LifeEvent
  | startCall
  | connectDone (o : ConnectOutcome)
deriving DecidableEq, Repr

/-- Run a sequence of lifecycle events. -/
def runLife : LifecycleState → List LifeEvent → LifecycleState
  | st, [] => st
  | st, LifeEvent.startCall :: rest => runLife (start st) rest
  | st, LifeEvent.connectDone o :: rest => runLife (connectRun o st).1 rest

/-! Helper lemmas about the bookkeeping FIFO. -/

theorem deliverSum_cons (a : FutureResponseAction) (l : List FutureResponseAction) :
    deliverSum (a :: l) =
      (if a.Action = ResponseAction.Deliver then a.Amount else 0) + deliverSum l := by
  simp [deliverSum]

theorem deliverSum_appendOrExtend (fa : List FutureResponseAction) (n : Nat)
    (act : ResponseAction) :
    deliverSum (appendOrExtend fa n act) =
      deliverSum fa + (if act = ResponseAction.Deliver then n else 0) := by
  induction fa with
  | nil => cases act <;> simp [appendOrExtend, deliverSum]
  | cons x rest ih =>
    cases rest with
    | nil =>
      cases hxt : x.Action <;> cases act <;>
        simp_all [appendOrExtend, deliverSum]
    | cons y rest2 =>
      simp only [appendOrExtend, deliverSum_cons, ih]
      omega

theorem appendOrExtend_head (y : FutureResponseAction) (rest : List FutureResponseAction)
    (n : Nat) (act : ResponseAction) :
    ∃ m tail, appendOrExtend (y :: rest) n act = FutureResponseAction.mk m y.Action :: tail := by
  cases rest with
  | nil =>
    by_cases hya : y.Action = act
    · exact ⟨y.Amount + n, [], by simp [appendOrExtend, hya]⟩
    · exact ⟨y.Amount, [⟨n, act⟩], by simp [appendOrExtend, hya]⟩
  | cons y2 rest2 =>
    exact ⟨y.Amount, appendOrExtend (y2 :: rest2) n act, by simp [appendOrExtend]⟩

theorem pairOK_actions (x y : FutureResponseAction) (m : Nat) :
    pairOK x (FutureResponseAction.mk m y.Action) = pairOK x y := by
  simp [pairOK]

theorem pairOK_deliverBulk (a : FutureResponseAction) (n : Nat) :
    pairOK a (FutureResponseAction.mk n ResponseAction.DeliverBulk) = true := by
  cases h : a.Action <;> simp [pairOK, h]

theorem coalescedB_tail (x : FutureResponseAction) (l : List FutureResponseAction)
    (h : coalescedB (x :: l) = true) : coalescedB l = true := by
  cases l with
  | nil => simp [coalescedB]
  | cons y rest => simp [coalescedB] at h; exact h.2

theorem coalescedB_appendOrExtend (fa : List FutureResponseAction) (n : Nat)
    (act : ResponseAction) (h : coalescedB fa = true) :
    coalescedB (appendOrExtend fa n act) = true := by
  induction fa with
  | nil => simp [appendOrExtend, coalescedB]
  | cons x rest ih =>
    cases rest with
    | nil =>
      by_cases hxa : x.Action = act
      · simp [appendOrExtend, hxa, coalescedB]
      · simp [appendOrExtend, hxa, coalescedB, pairOK]
    | cons y rest2 =>
      obtain ⟨m, tail, heq⟩ := appendOrExtend_head y rest2 n act
      have h2 : coalescedB (y :: rest2) = true := coalescedB_tail x _ h
      have hp : pairOK x y = true := by
        simp [coalescedB] at h; exact h.1
      have := ih h2
      rw [heq] at this
      simp only [appendOrExtend, heq, coalescedB, Bool.and_eq_true]
      exact ⟨by rw [pairOK_actions]; exact hp, this⟩

theorem coalescedB_append_bulk (fa : List FutureResponseAction) (n : Nat)
    (h : coalescedB fa = true) :
    coalescedB (fa ++ [FutureResponseAction.mk n ResponseAction.DeliverBulk]) = true := by
  induction fa with
  | nil => simp [coalescedB]
  | cons x rest ih =>
    cases rest with
    | nil => simpa [coalescedB] using pairOK_deliverBulk x n
    | cons y rest2 =>
      simp only [coalescedB, Bool.and_eq_true] at h
      have := ih h.2
      simp only [List.cons_append, coalescedB, Bool.and_eq_true] at this ⊢
      exact ⟨h.1, this⟩

theorem appendOrExtend_pos (fa : List FutureResponseAction) (n : Nat) (act : ResponseAction)
    (hfa : ∀ a ∈ fa, 0 < a.Amount) (hn : 0 < n) :
    ∀ a ∈ appendOrExtend fa n act, 0 < a.Amount := by
  induction fa with
  | nil => simpa [appendOrExtend] using hn
  | cons x rest ih =>
    cases rest with
    | nil =>
      by_cases hxa : x.Action = act
      · simp [appendOrExtend, hxa]; omega
      · simp only [appendOrExtend, hxa, if_false]
        intro a ha
        simp at ha
        rcases ha with ha | ha
        · exact ha ▸ hfa x (by simp)
        · exact ha ▸ hn
    | cons y rest2 =>
      simp only [appendOrExtend]
      intro a ha
      simp at ha
      rcases ha with ha | ha
      · exact ha ▸ hfa x (by simp)
      · exact ih (fun b hb => hfa b (by simp [hb])) a (by simpa using ha)

/-! Helper lemmas about the inner I/O loops. -/

theorem sendAll_le (w : Nat → WOutcome) (qs : List Query) (c : Nat) :
    c ≤ (sendAll w c qs).1 := by
  induction qs generalizing c with
  | nil => simp [sendAll]
  | cons q qs ih =>
    cases hw : w c with
    | ok =>
      rcases hs : sendAll w (c + 1) qs with ⟨c2, k, r⟩
      have h2 := ih (c + 1)
      rw [hs] at h2
      simp [sendAll, hw, hs]
      omega
    | throwEx e => simp [sendAll, hw]

theorem sendAll_unwind (w : Nat → WOutcome) (qs : List Query) (c : Nat)
    (h : ∃ i, c ≤ i ∧ i < (sendAll w c qs).1 ∧ w i = WOutcome.throwEx Ex.forcedUnwind) :
    (sendAll w c qs).2.2 = some Ex.forcedUnwind := by
  induction qs generalizing c with
  | nil =>
    obtain ⟨i, h1, h2, _⟩ := h
    simp [sendAll] at h2
    omega
  | cons q qs ih =>
    obtain ⟨i, h1, h2, h3⟩ := h
    cases hw : w c with
    | ok =>
      rcases hs : sendAll w (c + 1) qs with ⟨c2, k, r⟩
      rw [show (sendAll w c (q :: qs)).1 = c2 by simp [sendAll, hw, hs]] at h2
      have hi : c + 1 ≤ i := by
        rcases Nat.lt_or_ge i (c + 1) with hl | hg
        · exfalso
          have : i = c := by omega
          rw [this, hw] at h3
          cases h3
        · exact hg
      have h4 := ih (c + 1) ⟨i, hi, by rw [hs]; exact h2, h3⟩
      rw [hs] at h4
      simpa [sendAll, hw, hs] using h4
    | throwEx e =>
      rw [show (sendAll w c (q :: qs)).1 = c + 1 by simp [sendAll, hw]] at h2
      have : i = c := by omega
      rw [this, hw] at h3
      injection h3 with h5
      simp [sendAll, hw, h5]

theorem ignoreReads_le (rdo : Nat → ROutcome) (n c : Nat) :
    c ≤ (ignoreReads rdo c n).2 := by
  induction n generalizing c with
  | zero => simp [ignoreReads]
  | succ n ih =>
    cases hr : rdo c with
    | ok r =>
      have h2 := ih (c + 1)
      simp [ignoreReads, hr]
      omega
    | throwEx e => simp [ignoreReads, hr]

theorem ignoreReads_le_add (rdo : Nat → ROutcome) (n c : Nat) :
    (ignoreReads rdo c n).2 ≤ c + n := by
  induction n generalizing c with
  | zero => simp [ignoreReads]
  | succ n ih =>
    cases hr : rdo c with
    | ok r =>
      have h2 := ih (c + 1)
      simp [ignoreReads, hr]
      omega
    | throwEx e =>
      simp [ignoreReads, hr]

theorem ignoreReads_unwind (rdo : Nat → ROutcome) (n c : Nat)
    (h : ∃ i, c ≤ i ∧ i < (ignoreReads rdo c n).2 ∧ rdo i = ROutcome.throwEx Ex.forcedUnwind) :
    (ignoreReads rdo c n).1 = some Ex.forcedUnwind := by
  induction n generalizing c with
  | zero =>
    obtain ⟨i, h1, h2, _⟩ := h
    simp [ignoreReads] at h2
    omega
  | succ n ih =>
    obtain ⟨i, h1, h2, h3⟩ := h
    cases hr : rdo c with
    | ok r =>
      rw [show (ignoreReads rdo c (n + 1)).2 = (ignoreReads rdo (c + 1) n).2 by
        simp [ignoreReads, hr]] at h2
      have hi : c + 1 ≤ i := by
        rcases Nat.lt_or_ge i (c + 1) with hl | hg
        · exfalso
          have : i = c := by omega
          rw [this, hr] at h3
          cases h3
        · exact hg
      have h4 := ih (c + 1) ⟨i, hi, h2, h3⟩
      simpa [ignoreReads, hr] using h4
    | throwEx e =>
      rw [show (ignoreReads rdo c (n + 1)).2 = c + 1 by simp [ignoreReads, hr]] at h2
      have : i = c := by omega
      rw [this, hr] at h3
      injection h3 with h5
      simp [ignoreReads, hr, h5]

theorem deliverReads_le (rdo : Nat → ROutcome) (n : Nat) (ps : List Nat) (c : Nat) :
    c ≤ (deliverReads rdo c ps n).2.2 := by
  induction n generalizing c ps with
  | zero => simp [deliverReads]
  | succ n ih =>
    cases ps with
    | nil => simp [deliverReads]
    | cons h rest =>
      cases hr : rdo c with
      | ok r =>
        rcases hd : deliverReads rdo (c + 1) rest n with ⟨res, evs, c2⟩
        have h2 := ih rest (c + 1)
        rw [hd] at h2
        simp at h2
        simp [deliverReads, hr, hd]
        omega
      | throwEx e =>
        cases e with
        | forcedUnwind => simp [deliverReads, hr]
        | err k =>
          rcases hd : deliverReads rdo (c + 1) rest n with ⟨res, evs, c2⟩
          have h2 := ih rest (c + 1)
          rw [hd] at h2
          simp at h2
          simp [deliverReads, hr, hd]
          omega

theorem deliverReads_ok_len (rdo : Nat → ROutcome) (n : Nat) (ps p2 : List Nat) (c c2 : Nat)
    (evs : List Event) (h : deliverReads rdo c ps n = (Except.ok p2, evs, c2)) :
    ps.length = n + p2.length := by
  induction n generalizing c ps evs with
  | zero =>
    simp [deliverReads] at h
    simp [h.1]
  | succ n ih =>
    cases ps with
    | nil => simp [deliverReads] at h
    | cons hd rest =>
      cases hr : rdo c with
      | ok r =>
        rcases hrec : deliverReads rdo (c + 1) rest n with ⟨res, evs0, c3⟩
        cases res with
        | ok p3 =>
          simp [deliverReads, hr, hrec] at h
          obtain ⟨h1, h2e, h3c⟩ := h
          have h4 := ih rest (c + 1) evs0 (by rw [hrec, h1, h3c])
          simp only [List.length_cons]
          omega
        | error e => simp [deliverReads, hr, hrec] at h
      | throwEx e =>
        cases e with
        | forcedUnwind => simp [deliverReads, hr] at h
        | err k =>
          rcases hrec : deliverReads rdo (c + 1) rest n with ⟨res, evs0, c3⟩
          cases res with
          | ok p3 =>
            simp [deliverReads, hr, hrec] at h
            obtain ⟨h1, h2e, h3c⟩ := h
            have h4 := ih rest (c + 1) evs0 (by rw [hrec, h1, h3c])
            simp only [List.length_cons]
            omega
          | error e2 => simp [deliverReads, hr, hrec] at h

theorem deliverReads_unwind (rdo : Nat → ROutcome) (n : Nat) (ps : List Nat) (c : Nat)
    (h : ∃ i, c ≤ i ∧ i < (deliverReads rdo c ps n).2.2 ∧
      rdo i = ROutcome.throwEx Ex.forcedUnwind) :
    (deliverReads rdo c ps n).1 = Except.error LoopExit.unwind := by
  induction n generalizing c ps with
  | zero =>
    obtain ⟨i, h1, h2, _⟩ := h
    simp [deliverReads] at h2
    omega
  | succ n ih =>
    obtain ⟨i, h1, h2, h3⟩ := h
    cases ps with
    | nil =>
      simp [deliverReads] at h2
      omega
    | cons hd rest =>
      cases hr : rdo c with
      | ok r =>
        rcases hrec : deliverReads rdo (c + 1) rest n with ⟨res, evs0, c3⟩
        rw [show (deliverReads rdo c (hd :: rest) (n + 1)).2.2 = c3 by
          simp [deliverReads, hr, hrec]] at h2
        have hi : c + 1 ≤ i := by
          rcases Nat.lt_or_ge i (c + 1) with hl | hg
          · exfalso
            have : i = c := by omega
            rw [this, hr] at h3
            cases h3
          · exact hg
        have h4 := ih rest (c + 1) ⟨i, hi, by rw [hrec]; exact h2, h3⟩
        rw [hrec] at h4
        simpa [deliverReads, hr, hrec] using h4
      | throwEx e =>
        cases e with
        | forcedUnwind => simp [deliverReads, hr]
        | err k =>
          rcases hrec : deliverReads rdo (c + 1) rest n with ⟨res, evs0, c3⟩
          rw [show (deliverReads rdo c (hd :: rest) (n + 1)).2.2 = c3 by
            simp [deliverReads, hr, hrec]] at h2
          have hi : c + 1 ≤ i := by
            rcases Nat.lt_or_ge i (c + 1) with hl | hg
            · exfalso
              have : i = c := by omega
              rw [this, hr] at h3
              cases h3
            · exact hg
          have h4 := ih rest (c + 1) ⟨i, hi, by rw [hrec]; exact h2, h3⟩
          rw [hrec] at h4
          simpa [deliverReads, hr, hrec] using h4

theorem deliverReads_events (rdo : Nat → ROutcome) (n : Nat) (ps : List Nat) (c : Nat) :
    ∀ ev ∈ (deliverReads rdo c ps n).2.1, eventEx ev ≠ some Ex.forcedUnwind := by
  induction n generalizing c ps with
  | zero => simp [deliverReads]
  | succ n ih =>
    cases ps with
    | nil => simp [deliverReads]
    | cons hd rest =>
      cases hr : rdo c with
      | ok r =>
        rcases hrec : deliverReads rdo (c + 1) rest n with ⟨res, evs0, c3⟩
        have h4 := ih rest (c + 1)
        rw [hrec] at h4
        simp [deliverReads, hr, hrec, eventEx]
        intro ev hev
        exact h4 ev hev
      | throwEx e =>
        cases e with
        | forcedUnwind => simp [deliverReads, hr]
        | err k =>
          rcases hrec : deliverReads rdo (c + 1) rest n with ⟨res, evs0, c3⟩
          have h4 := ih rest (c + 1)
          rw [hrec] at h4
          simp [deliverReads, hr, hrec, eventEx]
          intro ev hev
          exact h4 ev hev

theorem bulkReads_le (rdo : Nat → ROutcome) (h : Nat) (n : Nat) :
    ∀ (sat : Bool) (acc : List Reply) (c : Nat), c ≤ (bulkReads rdo c h sat acc n).2.2 := by
  induction n with
  | zero => intro sat acc c; simp [bulkReads]
  | succ n ih =>
    intro sat acc c
    cases hr : rdo c with
    | ok r =>
      have h2 := ih sat (acc ++ [r]) (c + 1)
      rw [show (bulkReads rdo c h sat acc (n + 1)).2.2 =
        (bulkReads rdo (c + 1) h sat (acc ++ [r]) n).2.2 by simp [bulkReads, hr]]
      omega
    | throwEx e =>
      cases e with
      | forcedUnwind => simp [bulkReads, hr]
      | err k =>
        cases sat with
        | true => simp [bulkReads, hr]
        | false =>
          rcases hrec : bulkReads rdo (c + 1) h true acc n with ⟨res, evs, c2⟩
          have h2 := ih true acc (c + 1)
          rw [hrec] at h2
          simp at h2
          simp [bulkReads, hr, hrec]
          omega

theorem bulkReads_unwind (rdo : Nat → ROutcome) (h : Nat) (n : Nat) :
    ∀ (sat : Bool) (acc : List Reply) (c : Nat),
    (∃ i, c ≤ i ∧ i < (bulkReads rdo c h sat acc n).2.2 ∧
      rdo i = ROutcome.throwEx Ex.forcedUnwind) →
    (bulkReads rdo c h sat acc n).1 = Except.error LoopExit.unwind := by
  induction n with
  | zero =>
    intro sat acc c hex
    obtain ⟨i, h1, h2, _⟩ := hex
    simp [bulkReads] at h2
    omega
  | succ n ih =>
    intro sat acc c hex
    obtain ⟨i, h1, h2, h3⟩ := hex
    cases hr : rdo c with
    | ok r =>
      rw [show (bulkReads rdo c h sat acc (n + 1)).2.2 =
        (bulkReads rdo (c + 1) h sat (acc ++ [r]) n).2.2 by simp [bulkReads, hr]] at h2
      have hi : c + 1 ≤ i := by
        rcases Nat.lt_or_ge i (c + 1) with hl | hg
        · exfalso
          have : i = c := by omega
          rw [this, hr] at h3
          cases h3
        · exact hg
      have h4 := ih sat (acc ++ [r]) (c + 1) ⟨i, hi, h2, h3⟩
      simpa [bulkReads, hr] using h4
    | throwEx e =>
      cases e with
      | forcedUnwind => simp [bulkReads, hr]
      | err k =>
        cases sat with
        | true =>
          rw [show (bulkReads rdo c h true acc (n + 1)).2.2 = c + 1 by
            simp [bulkReads, hr]] at h2
          have : i = c := by omega
          rw [this, hr] at h3
          cases h3
        | false =>
          rcases hrec : bulkReads rdo (c + 1) h true acc n with ⟨res, evs, c2⟩
          rw [show (bulkReads rdo c h false acc (n + 1)).2.2 = c2 by
            simp [bulkReads, hr, hrec]] at h2
          have hi : c + 1 ≤ i := by
            rcases Nat.lt_or_ge i (c + 1) with hl | hg
            · exfalso
              have : i = c := by omega
              rw [this, hr] at h3
              cases h3
            · exact hg
          have h4 := ih true acc (c + 1) ⟨i, hi, by rw [hrec]; exact h2, h3⟩
          rw [hrec] at h4
          simp at h4
          simp [bulkReads, hr, hrec, h4]

theorem bulkReads_events (rdo : Nat → ROutcome) (h : Nat) (n : Nat) :
    ∀ (sat : Bool) (acc : List Reply) (c : Nat),
    ∀ ev ∈ (bulkReads rdo c h sat acc n).2.1, eventEx ev ≠ some Ex.forcedUnwind := by
  induction n with
  | zero => intro sat acc c; simp [bulkReads]
  | succ n ih =>
    intro sat acc c
    cases hr : rdo c with
    | ok r =>
      have h4 := ih sat (acc ++ [r]) (c + 1)
      simpa [bulkReads, hr] using h4
    | throwEx e =>
      cases e with
      | forcedUnwind => simp [bulkReads, hr]
      | err k =>
        cases sat with
        | true => simp [bulkReads, hr]
        | false =>
          rcases hrec : bulkReads rdo (c + 1) h true acc n with ⟨res, evs, c2⟩
          have h4 := ih true acc (c + 1)
          rw [hrec] at h4
          simp at h4
          simp [bulkReads, hr, hrec, eventEx]
          intro ev hev
          exact h4 ev hev

theorem bulkReads_allok (rdo : Nat → ROutcome) (h : Nat) (n : Nat) :
    ∀ (sat : Bool) (acc : List Reply) (c : Nat),
    (∀ i, i < n → ∃ r, rdo (c + i) = ROutcome.ok r) →
    ∃ acc2, bulkReads rdo c h sat acc n = (Except.ok (sat, acc2), [], c + n) := by
  induction n with
  | zero =>
    intro sat acc c _
    exact ⟨acc, by simp [bulkReads]⟩
  | succ n ih =>
    intro sat acc c hok
    obtain ⟨r, hr0⟩ := hok 0 (by omega)
    rw [show c + 0 = c by omega] at hr0
    have hshift : ∀ i, i < n → ∃ r2, rdo (c + 1 + i) = ROutcome.ok r2 := by
      intro i hi
      obtain ⟨r2, hr2⟩ := hok (i + 1) (by omega)
      exact ⟨r2, by rw [show c + 1 + i = c + (i + 1) by omega]; exact hr2⟩
    obtain ⟨acc2, hrec⟩ := ih sat (acc ++ [r]) (c + 1) hshift
    refine ⟨acc2, ?_⟩
    have he : c + 1 + n = c + (n + 1) := by omega
    rw [show bulkReads rdo c h sat acc (n + 1) =
      bulkReads rdo (c + 1) h sat (acc ++ [r]) n by simp [bulkReads, hr0]]
    rw [hrec, he]

theorem bulkReads_onefail (rdo : Nat → ROutcome) (h e : Nat) (n : Nat) :
    ∀ (j : Nat) (acc : List Reply) (c : Nat), j < n →
    rdo (c + j) = ROutcome.throwEx (Ex.err e) →
    (∀ i, i < n → i ≠ j → ∃ r, rdo (c + i) = ROutcome.ok r) →
    ∃ acc2, bulkReads rdo c h false acc n =
      (Except.ok (true, acc2), [Event.promiseExn h (Ex.err e)], c + n) := by
  induction n with
  | zero => intro j acc c hj; omega
  | succ n ih =>
    intro j acc c hj hfail hok
    cases j with
    | zero =>
      rw [show c + 0 = c by omega] at hfail
      have hshift : ∀ i, i < n → ∃ r2, rdo (c + 1 + i) = ROutcome.ok r2 := by
        intro i hi
        obtain ⟨r2, hr2⟩ := hok (i + 1) (by omega) (by omega)
        exact ⟨r2, by rw [show c + 1 + i = c + (i + 1) by omega]; exact hr2⟩
      obtain ⟨acc2, hrec⟩ := bulkReads_allok rdo h n true acc (c + 1) hshift
      refine ⟨acc2, ?_⟩
      have he : c + 1 + n = c + (n + 1) := by omega
      rw [show bulkReads rdo c h false acc (n + 1) =
        ((bulkReads rdo (c + 1) h true acc n).1,
         Event.promiseExn h (Ex.err e) :: (bulkReads rdo (c + 1) h true acc n).2.1,
         (bulkReads rdo (c + 1) h true acc n).2.2) by simp [bulkReads, hfail]]
      rw [hrec, he]
    | succ j2 =>
      obtain ⟨r, hr0⟩ := hok 0 (by omega) (by omega)
      rw [show c + 0 = c by omega] at hr0
      have hfail2 : rdo (c + 1 + j2) = ROutcome.throwEx (Ex.err e) := by
        rw [show c + 1 + j2 = c + (j2 + 1) by omega]
        exact hfail
      have hshift : ∀ i, i < n → i ≠ j2 → ∃ r2, rdo (c + 1 + i) = ROutcome.ok r2 := by
        intro i hi hne
        obtain ⟨r2, hr2⟩ := hok (i + 1) (by omega) (by omega)
        exact ⟨r2, by rw [show c + 1 + i = c + (i + 1) by omega]; exact hr2⟩
      obtain ⟨acc2, hrec⟩ := ih j2 (acc ++ [r]) (c + 1) (by omega) hfail2 hshift
      refine ⟨acc2, ?_⟩
      have he : c + 1 + n = c + (n + 1) := by omega
      rw [show bulkReads rdo c h false acc (n + 1) =
        bulkReads rdo (c + 1) h false (acc ++ [r]) n by simp [bulkReads, hr0]]
      rw [hrec, he]

/-! Step-level lemmas: exception routing of a Writer step and a Reader
step. -/

theorem writeItem_events (w : Nat → WOutcome) (c : Nat) (st : ConnState)
    (item : WriteQueueItem) :
    ∀ ev ∈ (writeItem w c st item).2.1, eventEx ev ≠ some Ex.forcedUnwind := by
  cases item with
  | fireAndForgetQuery q =>
    cases hw : w c with
    | ok => simp [writeItem, hw]
    | throwEx e => cases e <;> simp [writeItem, hw, eventEx]
  | fireAndForgetQueries qs =>
    rcases hs : sendAll w c qs with ⟨c2, k, r⟩
    cases r with
    | none => simp [writeItem, hs]
    | some e => cases e <;> simp [writeItem, hs, eventEx]
  | getResultOfQuery q h =>
    cases hw : w c with
    | ok => simp [writeItem, hw]
    | throwEx e => cases e <;> simp [writeItem, hw, eventEx]
  | getResultsOfQueries qs h =>
    rcases hs : sendAll w c qs with ⟨c2, k, r⟩
    cases r with
    | none => simp [writeItem, hs]
    | some e => cases e <;> simp [writeItem, hs, eventEx]

theorem writeItem_error_unwind (w : Nat → WOutcome) (c : Nat) (st : ConnState)
    (item : WriteQueueItem) (ex : Ex)
    (h : (writeItem w c st item).1 = Except.error ex) : ex = Ex.forcedUnwind := by
  cases item with
  | fireAndForgetQuery q =>
    cases hw : w c with
    | ok => simp [writeItem, hw] at h
    | throwEx e => cases e <;> simp [writeItem, hw] at h <;> simp [h]
  | fireAndForgetQueries qs =>
    rcases hs : sendAll w c qs with ⟨c2, k, r⟩
    cases r with
    | none => simp [writeItem, hs] at h
    | some e => cases e <;> simp [writeItem, hs] at h <;> simp [h]
  | getResultOfQuery q hh =>
    cases hw : w c with
    | ok => simp [writeItem, hw] at h
    | throwEx e => cases e <;> simp [writeItem, hw] at h <;> simp [h]
  | getResultsOfQueries qs hh =>
    rcases hs : sendAll w c qs with ⟨c2, k, r⟩
    cases r with
    | none => simp [writeItem, hs] at h
    | some e => cases e <;> simp [writeItem, hs] at h <;> simp [h]

theorem writeItem_unwind (w : Nat → WOutcome) (c : Nat) (st : ConnState)
    (item : WriteQueueItem)
    (h : ∃ i, c ≤ i ∧ i < (writeItem w c st item).2.2 ∧
      w i = WOutcome.throwEx Ex.forcedUnwind) :
    (writeItem w c st item).1 = Except.error Ex.forcedUnwind := by
  cases item with
  | fireAndForgetQuery q =>
    obtain ⟨i, h1, h2, h3⟩ := h
    cases hw : w c with
    | ok =>
      rw [show (writeItem w c st (WriteQueueItem.fireAndForgetQuery q)).2.2 = c + 1 by
        simp [writeItem, hw]] at h2
      have : i = c := by omega
      rw [this, hw] at h3
      cases h3
    | throwEx e =>
      cases e with
      | forcedUnwind => simp [writeItem, hw]
      | err k =>
        rw [show (writeItem w c st (WriteQueueItem.fireAndForgetQuery q)).2.2 = c + 1 by
          simp [writeItem, hw]] at h2
        have : i = c := by omega
        rw [this, hw] at h3
        cases h3
  | fireAndForgetQueries qs =>
    obtain ⟨i, h1, h2, h3⟩ := h
    rcases hs : sendAll w c qs with ⟨c2, k, r⟩
    have hu : (sendAll w c qs).2.2 = some Ex.forcedUnwind := by
      apply sendAll_unwind
      refine ⟨i, h1, ?_, h3⟩
      rw [hs]
      rw [show (writeItem w c st (WriteQueueItem.fireAndForgetQueries qs)).2.2 = c2 by
        cases r with
        | none => simp [writeItem, hs]
        | some e => cases e <;> simp [writeItem, hs]] at h2
      exact h2
    rw [hs] at hu
    simp at hu
    simp [writeItem, hs, hu]
  | getResultOfQuery q hh =>
    obtain ⟨i, h1, h2, h3⟩ := h
    cases hw : w c with
    | ok =>
      rw [show (writeItem w c st (WriteQueueItem.getResultOfQuery q hh)).2.2 = c + 1 by
        simp [writeItem, hw]] at h2
      have : i = c := by omega
      rw [this, hw] at h3
      cases h3
    | throwEx e =>
      cases e with
      | forcedUnwind => simp [writeItem, hw]
      | err k =>
        rw [show (writeItem w c st (WriteQueueItem.getResultOfQuery q hh)).2.2 = c + 1 by
          simp [writeItem, hw]] at h2
        have : i = c := by omega
        rw [this, hw] at h3
        cases h3
  | getResultsOfQueries qs hh =>
    obtain ⟨i, h1, h2, h3⟩ := h
    rcases hs : sendAll w c qs with ⟨c2, k, r⟩
    have hu : (sendAll w c qs).2.2 = some Ex.forcedUnwind := by
      apply sendAll_unwind
      refine ⟨i, h1, ?_, h3⟩
      rw [hs]
      rw [show (writeItem w c st (WriteQueueItem.getResultsOfQueries qs hh)).2.2 = c2 by
        cases r with
        | none => simp [writeItem, hs]
        | some e => cases e <;> simp [writeItem, hs]] at h2
      exact h2
    rw [hs] at hu
    simp at hu
    simp [writeItem, hs, hu]

theorem readStep_events (rdo : Nat → ROutcome) (c : Nat) (q : Queues) :
    ∀ ev ∈ (readStep rdo c q).2.1, eventEx ev ≠ some Ex.forcedUnwind := by
  rcases hfa : q.FutureResponseActions with _ | ⟨item, rest⟩
  · simp [readStep, hfa]
  · cases hact : item.Action with
    | Ignore =>
      rcases hir : ignoreReads rdo c item.Amount with ⟨r, c2⟩
      cases r with
      | none => simp [readStep, hfa, hact, hir]
      | some e => cases e <;> simp [readStep, hfa, hact, hir, eventEx]
    | Deliver =>
      rcases hd : deliverReads rdo c q.ReplyPromises item.Amount with ⟨res, evs, c2⟩
      have h4 := deliverReads_events rdo item.Amount q.ReplyPromises c
      rw [hd] at h4
      simp at h4
      cases res <;> simp [readStep, hfa, hact, hd] <;>
        exact fun ev hev => h4 ev hev
    | DeliverBulk =>
      rcases hrp : q.RepliesPromises with _ | ⟨h, rps⟩
      · simp [readStep, hfa, hact, hrp]
      · rcases hb : bulkReads rdo c h false [] item.Amount with ⟨res, evs, c2⟩
        have h4 := bulkReads_events rdo h item.Amount false [] c
        rw [hb] at h4
        simp at h4
        cases res with
        | ok p =>
          rcases p with ⟨sat, acc⟩
          cases sat with
          | true =>
            simp [readStep, hfa, hact, hrp, hb]
            exact fun ev hev => h4 ev hev
          | false =>
            simp [readStep, hfa, hact, hrp, hb, eventEx]
            intro ev hev
            rcases hev with hev | hev
            · exact h4 ev hev
            · simp [hev, eventEx]
        | error e =>
          simp [readStep, hfa, hact, hrp, hb]
          exact fun ev hev => h4 ev hev

theorem readStep_unwind (rdo : Nat → ROutcome) (c : Nat) (q : Queues)
    (hex : ∃ i, c ≤ i ∧ i < (readStep rdo c q).2.2 ∧
      rdo i = ROutcome.throwEx Ex.forcedUnwind) :
    (readStep rdo c q).1 = Except.error LoopExit.unwind := by
  obtain ⟨i, h1, h2, h3⟩ := hex
  rcases hfa : q.FutureResponseActions with _ | ⟨item, rest⟩
  · rw [show (readStep rdo c q).2.2 = c by simp [readStep, hfa]] at h2
    omega
  · cases hact : item.Action with
    | Ignore =>
      rcases hir : ignoreReads rdo c item.Amount with ⟨r, c2⟩
      have h4 : (ignoreReads rdo c item.Amount).1 = some Ex.forcedUnwind := by
        apply ignoreReads_unwind
        refine ⟨i, h1, ?_, h3⟩
        rw [hir]
        rw [show (readStep rdo c q).2.2 = c2 by
          cases r with
          | none => simp [readStep, hfa, hact, hir]
          | some e => cases e <;> simp [readStep, hfa, hact, hir]] at h2
        exact h2
      rw [hir] at h4
      simp at h4
      simp [readStep, hfa, hact, hir, h4]
    | Deliver =>
      rcases hd : deliverReads rdo c q.ReplyPromises item.Amount with ⟨res, evs, c2⟩
      have h4 : (deliverReads rdo c q.ReplyPromises item.Amount).1 =
          Except.error LoopExit.unwind := by
        apply deliverReads_unwind
        refine ⟨i, h1, ?_, h3⟩
        rw [hd]
        rw [show (readStep rdo c q).2.2 = c2 by
          cases res <;> simp [readStep, hfa, hact, hd]] at h2
        exact h2
      rw [hd] at h4
      simp at h4
      simp [readStep, hfa, hact, hd, h4]
    | DeliverBulk =>
      rcases hrp : q.RepliesPromises with _ | ⟨h, rps⟩
      · rw [show (readStep rdo c q).2.2 = c by simp [readStep, hfa, hact, hrp]] at h2
        omega
      · rcases hb : bulkReads rdo c h false [] item.Amount with ⟨res, evs, c2⟩
        have h4 : (bulkReads rdo c h false [] item.Amount).1 =
            Except.error LoopExit.unwind := by
          apply bulkReads_unwind
          refine ⟨i, h1, ?_, h3⟩
          rw [hb]
          rw [show (readStep rdo c q).2.2 = c2 by
            cases res with
            | ok p =>
              rcases p with ⟨sat, acc⟩
              cases sat <;> simp [readStep, hfa, hact, hrp, hb]
            | error e => simp [readStep, hfa, hact, hrp, hb]] at h2
          exact h2
        rw [hb] at h4
        simp at h4
        simp [readStep, hfa, hact, hrp, hb, h4]

/-! Trace-level invariance machinery. -/

theorem runTrace_inv (P : Queues → Prop) (wf : SysEvent → Bool)
    (hw : ∀ (w : Nat → WOutcome) (c : Nat) (st st2 : ConnState) (item : WriteQueueItem)
      (evs : List Event) (c2 : Nat), wf (SysEvent.write item) = true →
      writeItem w c st item = (Except.ok st2, evs, c2) → P st.queues → P st2.queues)
    (hr : ∀ (rdo : Nat → ROutcome) (c : Nat) (q q2 : Queues) (evs : List Event) (c2 : Nat),
      readStep rdo c q = (Except.ok q2, evs, c2) → P q → P q2) :
    ∀ (w : Nat → WOutcome) (rdo : Nat → ROutcome) (t : List SysEvent) (wc rc : Nat)
      (st st2 : ConnState), (∀ ev ∈ t, wf ev = true) → P st.queues →
      runTrace w rdo wc rc st t = some st2 → P st2.queues := by
  intro w rdo t
  induction t with
  | nil =>
    intro wc rc st st2 _ hp hrun
    simp [runTrace] at hrun
    rw [← hrun]
    exact hp
  | cons ev rest ih =>
    intro wc rc st st2 hwf hp hrun
    cases ev with
    | write item =>
      rcases hwi : writeItem w wc st item with ⟨res, evs, wc2⟩
      cases res with
      | ok st3 =>
        rw [show runTrace w rdo wc rc st (SysEvent.write item :: rest) =
          runTrace w rdo wc2 rc st3 rest by simp [runTrace, hwi]] at hrun
        exact ih wc2 rc st3 st2 (fun e he => hwf e (by simp [he]))
          (hw w wc st st3 item evs wc2 (hwf _ (by simp)) hwi hp) hrun
      | error e =>
        rw [show runTrace w rdo wc rc st (SysEvent.write item :: rest) = none by
          simp [runTrace, hwi]] at hrun
        cases hrun
    | read =>
      rcases hrs : readStep rdo rc st.queues with ⟨res, evs, rc2⟩
      cases res with
      | ok q2 =>
        rw [show runTrace w rdo wc rc st (SysEvent.read :: rest) =
          runTrace w rdo wc rc2 { st with queues := q2 } rest by
            simp [runTrace, hrs]] at hrun
        exact ih wc rc2 { st with queues := q2 } st2 (fun e he => hwf e (by simp [he]))
          (hr rdo rc st.queues q2 evs rc2 hrs hp) hrun
      | error e =>
        rw [show runTrace w rdo wc rc st (SysEvent.read :: rest) = none by
          simp [runTrace, hrs]] at hrun
        cases hrun

/-! Preservation of the per-claim invariants by single steps. -/

theorem writeItem_deliverSum (w : Nat → WOutcome) (c : Nat) (st st2 : ConnState)
    (item : WriteQueueItem) (evs : List Event) (c2 : Nat)
    (h : writeItem w c st item = (Except.ok st2, evs, c2))
    (hp : deliverSum st.queues.FutureResponseActions = st.queues.ReplyPromises.length) :
    deliverSum st2.queues.FutureResponseActions = st2.queues.ReplyPromises.length := by
  cases item with
  | fireAndForgetQuery q =>
    cases hw : w c with
    | ok =>
      simp [writeItem, hw] at h
      rw [← h.1]
      simpa [deliverSum_appendOrExtend] using hp
    | throwEx e =>
      cases e <;> simp [writeItem, hw] at h
      rw [← h.1]
      exact hp
  | fireAndForgetQueries qs =>
    rcases hs : sendAll w c qs with ⟨c3, k, r⟩
    cases r with
    | none =>
      simp [writeItem, hs] at h
      rw [← h.1]
      simpa [deliverSum_appendOrExtend] using hp
    | some e =>
      cases e <;> simp [writeItem, hs] at h
      rw [← h.1]
      exact hp
  | getResultOfQuery q hh =>
    cases hw : w c with
    | ok =>
      simp [writeItem, hw] at h
      rw [← h.1]
      simp [deliverSum_appendOrExtend]
      omega
    | throwEx e =>
      cases e <;> simp [writeItem, hw] at h
      rw [← h.1]
      exact hp
  | getResultsOfQueries qs hh =>
    rcases hs : sendAll w c qs with ⟨c3, k, r⟩
    cases r with
    | none =>
      simp [writeItem, hs] at h
      rw [← h.1]
      simpa [deliverSum, List.sum_append] using hp
    | some e =>
      cases e <;> simp [writeItem, hs] at h
      rw [← h.1]
      exact hp

theorem readStep_deliverSum (rdo : Nat → ROutcome) (c : Nat) (q q2 : Queues)
    (evs : List Event) (c2 : Nat)
    (h : readStep rdo c q = (Except.ok q2, evs, c2))
    (hp : deliverSum q.FutureResponseActions = q.ReplyPromises.length) :
    deliverSum q2.FutureResponseActions = q2.ReplyPromises.length := by
  rcases hfa : q.FutureResponseActions with _ | ⟨item, rest⟩
  · simp [readStep, hfa] at h
    rw [← h.1]
    exact hp
  · rw [hfa, deliverSum_cons] at hp
    cases hact : item.Action with
    | Ignore =>
      rcases hir : ignoreReads rdo c item.Amount with ⟨r, c3⟩
      cases r with
      | none =>
        simp [readStep, hfa, hact, hir] at h
        rw [← h.1]
        simp [hact] at hp
        simpa using hp
      | some e =>
        cases e <;> simp [readStep, hfa, hact, hir] at h
        rw [← h.1]
        simp [hact] at hp
        simpa using hp
    | Deliver =>
      rcases hd : deliverReads rdo c q.ReplyPromises item.Amount with ⟨res, evs0, c3⟩
      cases res with
      | ok pl =>
        simp [readStep, hfa, hact, hd] at h
        rw [← h.1]
        have hlen := deliverReads_ok_len rdo item.Amount q.ReplyPromises pl c c3 evs0 hd
        simp [hact] at hp
        simp
        omega
      | error e => simp [readStep, hfa, hact, hd] at h
    | DeliverBulk =>
      rcases hrp : q.RepliesPromises with _ | ⟨hh, rps⟩
      · simp [readStep, hfa, hact, hrp] at h
      · rcases hb : bulkReads rdo c hh false [] item.Amount with ⟨res, evs0, c3⟩
        cases res with
        | ok p =>
          rcases p with ⟨sat, acc⟩
          cases sat with
          | true => simp [readStep, hfa, hact, hrp, hb] at h
          | false =>
            simp [readStep, hfa, hact, hrp, hb] at h
            rw [← h.1]
            simp [hact] at hp
            simpa using hp
        | error e => simp [readStep, hfa, hact, hrp, hb] at h

theorem writeItem_coalesced (w : Nat → WOutcome) (c : Nat) (st st2 : ConnState)
    (item : WriteQueueItem) (evs : List Event) (c2 : Nat)
    (h : writeItem w c st item = (Except.ok st2, evs, c2))
    (hp : coalescedB st.queues.FutureResponseActions = true) :
    coalescedB st2.queues.FutureResponseActions = true := by
  cases item with
  | fireAndForgetQuery q =>
    cases hw : w c with
    | ok =>
      simp [writeItem, hw] at h
      rw [← h.1]
      exact coalescedB_appendOrExtend _ _ _ hp
    | throwEx e =>
      cases e <;> simp [writeItem, hw] at h
      rw [← h.1]
      exact hp
  | fireAndForgetQueries qs =>
    rcases hs : sendAll w c qs with ⟨c3, k, r⟩
    cases r with
    | none =>
      simp [writeItem, hs] at h
      rw [← h.1]
      exact coalescedB_appendOrExtend _ _ _ hp
    | some e =>
      cases e <;> simp [writeItem, hs] at h
      rw [← h.1]
      exact hp
  | getResultOfQuery q hh =>
    cases hw : w c with
    | ok =>
      simp [writeItem, hw] at h
      rw [← h.1]
      exact coalescedB_appendOrExtend _ _ _ hp
    | throwEx e =>
      cases e <;> simp [writeItem, hw] at h
      rw [← h.1]
      exact hp
  | getResultsOfQueries qs hh =>
    rcases hs : sendAll w c qs with ⟨c3, k, r⟩
    cases r with
    | none =>
      simp [writeItem, hs] at h
      rw [← h.1]
      exact coalescedB_append_bulk _ _ hp
    | some e =>
      cases e <;> simp [writeItem, hs] at h
      rw [← h.1]
      exact hp

theorem readStep_coalesced (rdo : Nat → ROutcome) (c : Nat) (q q2 : Queues)
    (evs : List Event) (c2 : Nat)
    (h : readStep rdo c q = (Except.ok q2, evs, c2))
    (hp : coalescedB q.FutureResponseActions = true) :
    coalescedB q2.FutureResponseActions = true := by
  rcases hfa : q.FutureResponseActions with _ | ⟨item, rest⟩
  · simp [readStep, hfa] at h
    rw [← h.1]
    exact hp
  · rw [hfa] at hp
    have hrest : coalescedB rest = true := coalescedB_tail item rest hp
    cases hact : item.Action with
    | Ignore =>
      rcases hir : ignoreReads rdo c item.Amount with ⟨r, c3⟩
      cases r with
      | none =>
        simp [readStep, hfa, hact, hir] at h
        rw [← h.1]
        exact hrest
      | some e =>
        cases e <;> simp [readStep, hfa, hact, hir] at h
        rw [← h.1]
        exact hrest
    | Deliver =>
      rcases hd : deliverReads rdo c q.ReplyPromises item.Amount with ⟨res, evs0, c3⟩
      cases res with
      | ok pl =>
        simp [readStep, hfa, hact, hd] at h
        rw [← h.1]
        exact hrest
      | error e => simp [readStep, hfa, hact, hd] at h
    | DeliverBulk =>
      rcases hrp : q.RepliesPromises with _ | ⟨hh, rps⟩
      · simp [readStep, hfa, hact, hrp] at h
      · rcases hb : bulkReads rdo c hh false [] item.Amount with ⟨res, evs0, c3⟩
        cases res with
        | ok p =>
          rcases p with ⟨sat, acc⟩
          cases sat with
          | true => simp [readStep, hfa, hact, hrp, hb] at h
          | false =>
            simp [readStep, hfa, hact, hrp, hb] at h
            rw [← h.1]
            exact hrest
        | error e => simp [readStep, hfa, hact, hrp, hb] at h

theorem writeItem_positive (w : Nat → WOutcome) (c : Nat) (st st2 : ConnState)
    (item : WriteQueueItem) (evs : List Event) (c2 : Nat)
    (hwf : wfEvent (SysEvent.write item) = true)
    (h : writeItem w c st item = (Except.ok st2, evs, c2))
    (hp : ∀ a ∈ st.queues.FutureResponseActions, 0 < a.Amount) :
    ∀ a ∈ st2.queues.FutureResponseActions, 0 < a.Amount := by
  cases item with
  | fireAndForgetQuery q =>
    cases hw : w c with
    | ok =>
      simp [writeItem, hw] at h
      rw [← h.1]
      exact appendOrExtend_pos _ _ _ hp (by omega)
    | throwEx e =>
      cases e <;> simp [writeItem, hw] at h
      rw [← h.1]
      exact hp
  | fireAndForgetQueries qs =>
    have hqs : 0 < qs.length := by
      simp [wfEvent] at hwf
      cases qs with
      | nil => simp [List.isEmpty] at hwf
      | cons a l => simp
    rcases hs : sendAll w c qs with ⟨c3, k, r⟩
    cases r with
    | none =>
      simp [writeItem, hs] at h
      rw [← h.1]
      exact appendOrExtend_pos _ _ _ hp hqs
    | some e =>
      cases e <;> simp [writeItem, hs] at h
      rw [← h.1]
      exact hp
  | getResultOfQuery q hh =>
    cases hw : w c with
    | ok =>
      simp [writeItem, hw] at h
      rw [← h.1]
      exact appendOrExtend_pos _ _ _ hp (by omega)
    | throwEx e =>
      cases e <;> simp [writeItem, hw] at h
      rw [← h.1]
      exact hp
  | getResultsOfQueries qs hh =>
    have hqs : 0 < qs.length := by
      simp [wfEvent] at hwf
      cases qs with
      | nil => simp [List.isEmpty] at hwf
      | cons a l => simp
    rcases hs : sendAll w c qs with ⟨c3, k, r⟩
    cases r with
    | none =>
      simp [writeItem, hs] at h
      rw [← h.1]
      intro a ha
      simp at ha
      rcases ha with ha | ha
      · exact hp a ha
      · rw [ha]
        exact hqs
    | some e =>
      cases e <;> simp [writeItem, hs] at h
      rw [← h.1]
      exact hp

theorem readStep_positive (rdo : Nat → ROutcome) (c : Nat) (q q2 : Queues)
    (evs : List Event) (c2 : Nat)
    (h : readStep rdo c q = (Except.ok q2, evs, c2))
    (hp : ∀ a ∈ q.FutureResponseActions, 0 < a.Amount) :
    ∀ a ∈ q2.FutureResponseActions, 0 < a.Amount := by
  rcases hfa : q.FutureResponseActions with _ | ⟨item, rest⟩
  · simp [readStep, hfa] at h
    rw [← h.1, hfa]
    simp
  · rw [hfa] at hp
    have hrest : ∀ a ∈ rest, 0 < a.Amount := fun a ha => hp a (by simp [ha])
    cases hact : item.Action with
    | Ignore =>
      rcases hir : ignoreReads rdo c item.Amount with ⟨r, c3⟩
      cases r with
      | none =>
        simp [readStep, hfa, hact, hir] at h
        rw [← h.1]
        exact hrest
      | some e =>
        cases e <;> simp [readStep, hfa, hact, hir] at h
        rw [← h.1]
        exact hrest
    | Deliver =>
      rcases hd : deliverReads rdo c q.ReplyPromises item.Amount with ⟨res, evs0, c3⟩
      cases res with
      | ok pl =>
        simp [readStep, hfa, hact, hd] at h
        rw [← h.1]
        exact hrest
      | error e => simp [readStep, hfa, hact, hd] at h
    | DeliverBulk =>
      rcases hrp : q.RepliesPromises with _ | ⟨hh, rps⟩
      · simp [readStep, hfa, hact, hrp] at h
      · rcases hb : bulkReads rdo c hh false [] item.Amount with ⟨res, evs0, c3⟩
        cases res with
        | ok p =>
          rcases p with ⟨sat, acc⟩
          cases sat with
          | true => simp [readStep, hfa, hact, hrp, hb] at h
          | false =>
            simp [readStep, hfa, hact, hrp, hb] at h
            rw [← h.1]
            exact hrest
        | error e => simp [readStep, hfa, hact, hrp, hb] at h

/-! Lifecycle helper lemmas. -/

theorem start_loops (st : LifecycleState) :
    (start st).readLoops = st.readLoops + (if st.started then 0 else 1) ∧
    (start st).writeLoops = st.writeLoops + (if st.started then 0 else 1) ∧
    (start st).connectAttempts = st.connectAttempts + (if st.connecting then 0 else 1) ∧
    (start st).started = true := by
  cases hs : st.started <;> cases hc : st.connecting <;> simp [start, hs, hc]

theorem connectRun_loops (o : ConnectOutcome) (st : LifecycleState) :
    ((connectRun o st).1.readLoops = st.readLoops ∧
     (connectRun o st).1.writeLoops = st.writeLoops ∧
     (connectRun o st).1.started = st.started) := by
  cases o <;> simp [connectRun]

theorem runLife_loops (t : List LifeEvent) :
    ∀ st : LifecycleState,
    st.readLoops = (if st.started then 1 else 0) →
    st.writeLoops = (if st.started then 1 else 0) →
    (runLife st t).readLoops = (if (runLife st t).started then 1 else 0) ∧
    (runLife st t).writeLoops = (if (runLife st t).started then 1 else 0) := by
  induction t with
  | nil => intro st h1 h2; exact ⟨h1, h2⟩
  | cons ev rest ih =>
    intro st h1 h2
    cases ev with
    | startCall =>
      obtain ⟨e1, e2, _, e4⟩ := start_loops st
      refine ih (start st) ?_ ?_
      · rw [e1, e4]
        cases hs : st.started <;> simp [hs] at h1 ⊢ <;> omega
      · rw [e2, e4]
        cases hs : st.started <;> simp [hs] at h2 ⊢ <;> omega
    | connectDone o =>
      obtain ⟨e1, e2, e3⟩ := connectRun_loops o st
      exact ih (connectRun o st).1 (by rw [e1, e3]; exact h1) (by rw [e2, e3]; exact h2)

/-! The claims. -/

/-- C1: at every point where the Reader is not mid-step (i.e. between whole
Writer-item and Reader-entry steps of any interleaving from the initial
state), the sum of the amounts of the `Deliver` entries of
`futureActions` equals the number of pending single-reply completion
handles in `ReplyPromises`: the Writer pushes exactly one handle per unit
it adds to a `Deliver` entry and the Reader pops exactly one handle per
unit it consumes. -/
theorem C1_deliver_units_match_single_handles (w : Nat → WOutcome) (rdo : Nat → ROutcome)
    (t : List SysEvent) (st : ConnState)
    (h : runTrace w rdo 0 0 initState t = some st) :
    deliverSum st.queues.FutureResponseActions = st.queues.ReplyPromises.length :=
  runTrace_inv (fun q => deliverSum q.FutureResponseActions = q.ReplyPromises.length)
    (fun _ => true)
    (fun w2 c st0 st2 item evs c2 _ hh hp => writeItem_deliverSum w2 c st0 st2 item evs c2 hh hp)
    (fun rdo2 c q q2 evs c2 hh hp => readStep_deliverSum rdo2 c q q2 evs c2 hh hp)
    w rdo t 0 0 initState st (fun _ _ => rfl) (by simp [initState, deliverSum]) h

/-- Witness for C1: a concrete trace (one awaited single query, then one
Reader step) ends in a state satisfying the invariant. -/
theorem C1_witness :
    runTrace (fun _ => WOutcome.ok) (fun _ => ROutcome.ok 7) 0 0 initState
      [SysEvent.write (WriteQueueItem.getResultOfQuery 5 9), SysEvent.read] =
      some ⟨⟨[], [], []⟩, true⟩ ∧
    deliverSum (⟨⟨[], [], []⟩, true⟩ : ConnState).queues.FutureResponseActions =
      (⟨⟨[], [], []⟩, true⟩ : ConnState).queues.ReplyPromises.length :=
  ⟨by decide, C1_deliver_units_match_single_handles (fun _ => WOutcome.ok)
    (fun _ => ROutcome.ok 7)
    [SysEvent.write (WriteQueueItem.getResultOfQuery 5 9), SysEvent.read]
    ⟨⟨[], [], []⟩, true⟩ (by decide)⟩

/-- C2, counterexample: the claim says that after a failed read inside an
`Ignore(2)` entry the Reader continues with the next of the 2 reads, so
both replies are attempted.  In the source the `try` block wraps the whole
`for` loop and the `catch` ends in `continue` of the OUTER while loop, so
after the first read fails only 1 `ReadOne` call has been made, not 2. -/
theorem C2_counterexample :
    readStep (fun i => if i = 0 then ROutcome.throwEx (Ex.err 3) else ROutcome.ok 7) 0
      ⟨[⟨2, ResponseAction.Ignore⟩], [], []⟩ =
      (Except.ok ⟨[], [], []⟩, [Event.logIgnoreError (Ex.err 3)], 1) ∧
    (1 : Nat) ≠ 2 := ⟨rfl, by decide⟩

/-- C2, amended: when the Reader processes an `Ignore(N)` entry and a read
fails with a non-cancellation error, the failure is logged and the Reader
abandons the remaining reads of this entry, continuing with the next
`futureActions` entry; at most the reads up to and including the failing
one (hence at most N) are attempted. -/
theorem C2_ignore_failure_abandons_entry (rdo : Nat → ROutcome) (c : Nat) (q : Queues)
    (n : Nat) (rest : List FutureResponseAction) (e : Nat) (c2 : Nat)
    (hfa : q.FutureResponseActions = ⟨n, ResponseAction.Ignore⟩ :: rest)
    (hir : ignoreReads rdo c n = (some (Ex.err e), c2)) :
    readStep rdo c q = (Except.ok { q with FutureResponseActions := rest },
      [Event.logIgnoreError (Ex.err e)], c2) ∧ c2 ≤ c + n := by
  constructor
  · simp [readStep, hfa, hir]
  · have h2 := ignoreReads_le_add rdo n c
    rw [hir] at h2
    simpa using h2

/-- Witness for C2's amended claim: an `Ignore(2)` entry whose first read
fails is popped after a single logged read attempt. -/
theorem C2_witness :
    readStep (fun i => if i = 0 then ROutcome.throwEx (Ex.err 5) else ROutcome.ok 8) 0
      ⟨[⟨2, ResponseAction.Ignore⟩], [3], [4]⟩ =
      (Except.ok ⟨[], [3], [4]⟩, [Event.logIgnoreError (Ex.err 5)], 1) ∧ (1 : Nat) ≤ 0 + 2 :=
  C2_ignore_failure_abandons_entry
    (fun i => if i = 0 then ROutcome.throwEx (Ex.err 5) else ROutcome.ok 8) 0
    ⟨[⟨2, ResponseAction.Ignore⟩], [3], [4]⟩ 2 [] 5 1 rfl rfl

/-- C3, counterexample: the claim says a failed `FireBulk` send extends the
tail `Ignore` entry by K, the count of successfully sent sub-queries.  With
2 queries where the first send succeeds (K = 1) and the second fails, the
source's `catch` ends in `continue`, skipping the append entirely:
`futureActions` stays `[]` instead of becoming `[{1, Ignore}]`. -/
theorem C3_counterexample :
    writeItem (fun i => if i = 0 then WOutcome.ok else WOutcome.throwEx (Ex.err 4)) 0
      initState (WriteQueueItem.fireAndForgetQueries [10, 11]) =
      (Except.ok initState, [Event.logSendError (Ex.err 4)], 2) ∧
    initState.queues.FutureResponseActions = [] ∧
    ([] : List FutureResponseAction) ≠ [⟨1, ResponseAction.Ignore⟩] :=
  ⟨rfl, rfl, by decide⟩

/-- C3, amended: when the Writer processes a `FireBulk` item and a send
fails with a non-cancellation error, it logs and continues and appends
NOTHING to `futureActions` (the item contributes zero units, regardless of
how many sub-queries were already sent); on full success the tail `Ignore`
entry is appended-or-extended by exactly N. -/
theorem C3_firebulk_failure_appends_nothing (w : Nat → WOutcome) (c : Nat)
    (st : ConnState) (qs : List Query) :
    (∀ e c2 k, sendAll w c qs = (c2, k, some (Ex.err e)) →
      writeItem w c st (WriteQueueItem.fireAndForgetQueries qs) =
        (Except.ok st, [Event.logSendError (Ex.err e)], c2)) ∧
    (∀ c2 k, sendAll w c qs = (c2, k, none) →
      writeItem w c st (WriteQueueItem.fireAndForgetQueries qs) =
        (Except.ok { st with
            queues := { st.queues with
              FutureResponseActions :=
                appendOrExtend st.queues.FutureResponseActions qs.length ResponseAction.Ignore },
            queuedReads := true }, [], c2)) := by
  constructor
  · intro e c2 k hs
    simp [writeItem, hs]
  · intro c2 k hs
    simp [writeItem, hs]

/-- Witness for C3's amended claim: both the failing path (nothing
appended) and the all-success path (tail extended by N = 2) at concrete
inputs. -/
theorem C3_witness :
    writeItem (fun i => if i = 0 then WOutcome.ok else WOutcome.throwEx (Ex.err 4)) 0
      initState (WriteQueueItem.fireAndForgetQueries [10, 11]) =
      (Except.ok initState, [Event.logSendError (Ex.err 4)], 2) ∧
    writeItem (fun _ => WOutcome.ok) 0 initState
      (WriteQueueItem.fireAndForgetQueries [10, 11]) =
      (Except.ok { initState with
          queues := { initState.queues with
            FutureResponseActions :=
              appendOrExtend initState.queues.FutureResponseActions 2 ResponseAction.Ignore },
          queuedReads := true }, [], 2) :=
  ⟨(C3_firebulk_failure_appends_nothing
      (fun i => if i = 0 then WOutcome.ok else WOutcome.throwEx (Ex.err 4)) 0
      initState [10, 11]).1 4 2 1 rfl,
   (C3_firebulk_failure_appends_nothing (fun _ => WOutcome.ok) 0
      initState [10, 11]).2 2 2 rfl⟩

/-- C4: if the send of an `AwaitSingle` item fails with a non-cancellation
error, the item's completion handle receives that exception and the Writer
appends nothing: the whole state (`futureActions`, `ReplyPromises` and the
`queuedReads` flag) is returned unchanged. -/
theorem C4_awaitsingle_send_failure_atomic (w : Nat → WOutcome) (c : Nat)
    (st : ConnState) (q : Query) (h e : Nat)
    (hw : w c = WOutcome.throwEx (Ex.err e)) :
    writeItem w c st (WriteQueueItem.getResultOfQuery q h) =
      (Except.ok st, [Event.promiseExn h (Ex.err e)], c + 1) := by
  simp [writeItem, hw]

/-- Witness for C4: a concrete failing `AwaitSingle` send leaves the state
untouched and routes the exception to handle 9. -/
theorem C4_witness :
    writeItem (fun _ => WOutcome.throwEx (Ex.err 6)) 0
      ⟨⟨[⟨1, ResponseAction.Ignore⟩], [2], [3]⟩, false⟩
      (WriteQueueItem.getResultOfQuery 5 9) =
      (Except.ok ⟨⟨[⟨1, ResponseAction.Ignore⟩], [2], [3]⟩, false⟩,
        [Event.promiseExn 9 (Ex.err 6)], 1) :=
  C4_awaitsingle_send_failure_atomic (fun _ => WOutcome.throwEx (Ex.err 6)) 0
    ⟨⟨[⟨1, ResponseAction.Ignore⟩], [2], [3]⟩, false⟩ 5 9 6 rfl

/-- C5: after any single Writer step along any interleaving from the
initial state, no two adjacent entries of `futureActions` are both
`Ignore` and no two adjacent entries are both `Deliver`, while a
successfully sent `AwaitBulk` item always appends one fresh
`{N, DeliverBulk}` entry at the back that is never merged with its
neighbours. -/
theorem C5_coalescing_invariant :
    (∀ (w : Nat → WOutcome) (rdo : Nat → ROutcome) (t : List SysEvent) (st : ConnState),
      runTrace w rdo 0 0 initState t = some st →
      coalescedB st.queues.FutureResponseActions = true) ∧
    (∀ (w : Nat → WOutcome) (c : Nat) (st : ConnState) (qs : List Query) (h c2 k : Nat),
      sendAll w c qs = (c2, k, none) →
      writeItem w c st (WriteQueueItem.getResultsOfQueries qs h) =
        (Except.ok { st with
            queues := { st.queues with
              RepliesPromises := st.queues.RepliesPromises ++ [h],
              FutureResponseActions := st.queues.FutureResponseActions ++
                [⟨qs.length, ResponseAction.DeliverBulk⟩] },
            queuedReads := true }, [], c2)) := by
  constructor
  · intro w rdo t st h
    exact runTrace_inv (fun q => coalescedB q.FutureResponseActions = true)
      (fun _ => true)
      (fun w2 c st0 st2 item evs c2 _ hh hp => writeItem_coalesced w2 c st0 st2 item evs c2 hh hp)
      (fun rdo2 c q q2 evs c2 hh hp => readStep_coalesced rdo2 c q q2 evs c2 hh hp)
      w rdo t 0 0 initState st (fun _ _ => rfl) (by simp [initState, coalescedB]) h
  · intro w c st qs h c2 k hs
    simp [writeItem, hs]

/-- Witness for C5: a concrete trace (two fire-and-forget items, one
awaited single, one awaited bulk) ends with a coalesced bookkeeping FIFO,
and a concrete `AwaitBulk` step appends exactly one fresh
`DeliverBulk` entry. -/
theorem C5_witness :
    runTrace (fun _ => WOutcome.ok) (fun _ => ROutcome.ok 7) 0 0 initState
      [SysEvent.write (WriteQueueItem.fireAndForgetQuery 1),
       SysEvent.write (WriteQueueItem.fireAndForgetQuery 2),
       SysEvent.write (WriteQueueItem.getResultOfQuery 3 9),
       SysEvent.write (WriteQueueItem.getResultsOfQueries [4, 5] 8)] =
      some ⟨⟨[⟨2, ResponseAction.Ignore⟩, ⟨1, ResponseAction.Deliver⟩,
              ⟨2, ResponseAction.DeliverBulk⟩], [9], [8]⟩, true⟩ ∧
    coalescedB [FutureResponseAction.mk 2 ResponseAction.Ignore,
      ⟨1, ResponseAction.Deliver⟩, ⟨2, ResponseAction.DeliverBulk⟩] = true ∧
    writeItem (fun _ => WOutcome.ok) 0 initState
      (WriteQueueItem.getResultsOfQueries [4, 5] 8) =
      (Except.ok { initState with
          queues := { initState.queues with
            RepliesPromises := initState.queues.RepliesPromises ++ [8],
            FutureResponseActions := initState.queues.FutureResponseActions ++
              [⟨2, ResponseAction.DeliverBulk⟩] },
          queuedReads := true }, [], 2) :=
  ⟨by decide,
   C5_coalescing_invariant.1 (fun _ => WOutcome.ok) (fun _ => ROutcome.ok 7)
     [SysEvent.write (WriteQueueItem.fireAndForgetQuery 1),
      SysEvent.write (WriteQueueItem.fireAndForgetQuery 2),
      SysEvent.write (WriteQueueItem.getResultOfQuery 3 9),
      SysEvent.write (WriteQueueItem.getResultsOfQueries [4, 5] 8)]
     ⟨⟨[⟨2, ResponseAction.Ignore⟩, ⟨1, ResponseAction.Deliver⟩,
        ⟨2, ResponseAction.DeliverBulk⟩], [9], [8]⟩, true⟩ (by decide),
   C5_coalescing_invariant.2 (fun _ => WOutcome.ok) 0 initState [4, 5] 8 2 2 rfl⟩

/-- C6: when the Reader processes a `DeliverBulk(N)` entry and exactly one
of the N reads fails with a non-cancellation error, the single bulk
completion handle is signaled exactly once, with that exception; the
remaining reads of the N are still attempted (exactly `c + N` is the I/O
counter after the step); the subsequent unconditional
`promise.set_value` then throws `std::future_error`
(`LoopExit.futureError`), which is the entry's only completion signal
being the exception. -/
theorem C6_deliverbulk_single_failure (rdo : Nat → ROutcome) (c : Nat) (q : Queues)
    (n : Nat) (rest : List FutureResponseAction) (h : Nat) (rps : List Nat) (e j : Nat)
    (hfa : q.FutureResponseActions = ⟨n, ResponseAction.DeliverBulk⟩ :: rest)
    (hrp : q.RepliesPromises = h :: rps)
    (hj : j < n) (hfail : rdo (c + j) = ROutcome.throwEx (Ex.err e))
    (hok : ∀ i, i < n → i ≠ j → ∃ r, rdo (c + i) = ROutcome.ok r) :
    (readStep rdo c q).2.1 = [Event.promiseExn h (Ex.err e)] ∧
    (readStep rdo c q).2.2 = c + n ∧
    (readStep rdo c q).1 = Except.error LoopExit.futureError := by
  obtain ⟨acc2, hb⟩ := bulkReads_onefail rdo h e n j [] c hj hfail hok
  refine ⟨?_, ?_, ?_⟩ <;> simp [readStep, hfa, hrp, hb]

/-- Witness for C6: a `DeliverBulk(2)` entry whose first read fails with
error 7 and whose second read succeeds: handle 4 is signaled exactly once
with the exception, and both reads are attempted. -/
theorem C6_witness :
    (readStep (fun i => if i = 0 then ROutcome.throwEx (Ex.err 7) else ROutcome.ok 5) 0
      ⟨[⟨2, ResponseAction.DeliverBulk⟩], [], [4]⟩).2.1 =
      [Event.promiseExn 4 (Ex.err 7)] ∧
    (readStep (fun i => if i = 0 then ROutcome.throwEx (Ex.err 7) else ROutcome.ok 5) 0
      ⟨[⟨2, ResponseAction.DeliverBulk⟩], [], [4]⟩).2.2 = 0 + 2 ∧
    (readStep (fun i => if i = 0 then ROutcome.throwEx (Ex.err 7) else ROutcome.ok 5) 0
      ⟨[⟨2, ResponseAction.DeliverBulk⟩], [], [4]⟩).1 =
      Except.error LoopExit.futureError :=
  C6_deliverbulk_single_failure
    (fun i => if i = 0 then ROutcome.throwEx (Ex.err 7) else ROutcome.ok 5) 0
    ⟨[⟨2, ResponseAction.DeliverBulk⟩], [], [4]⟩ 2 [] 4 [] 7 0 rfl rfl (by decide) rfl
    (fun i hi hne => by
      match i with
      | 0 => exact absurd rfl hne
      | 1 => exact ⟨5, rfl⟩)

/-- C7: a forced-unwind (cooperative task-cancellation) exception raised
inside the Writer loop, the Reader loop or the Connector is re-raised
unchanged at every catch site and propagates out of the step: whenever an
I/O call consumed by a step throws `forced_unwind` the step's result is
that propagated exception; the only exception a Writer step or the
Connector can propagate is `forced_unwind`; and no emitted log line or
completion-handle signal ever carries `forced_unwind`. -/
theorem C7_forced_unwind_propagates (w : Nat → WOutcome) (rdo : Nat → ROutcome)
    (c : Nat) (st : ConnState) (item : WriteQueueItem) (q : Queues)
    (o : ConnectOutcome) (lst : LifecycleState) :
    ((∃ i, c ≤ i ∧ i < (writeItem w c st item).2.2 ∧
        w i = WOutcome.throwEx Ex.forcedUnwind) →
      (writeItem w c st item).1 = Except.error Ex.forcedUnwind) ∧
    (∀ e2, (writeItem w c st item).1 = Except.error e2 → e2 = Ex.forcedUnwind) ∧
    (∀ ev ∈ (writeItem w c st item).2.1, eventEx ev ≠ some Ex.forcedUnwind) ∧
    ((∃ i, c ≤ i ∧ i < (readStep rdo c q).2.2 ∧
        rdo i = ROutcome.throwEx Ex.forcedUnwind) →
      (readStep rdo c q).1 = Except.error LoopExit.unwind) ∧
    (∀ ev ∈ (readStep rdo c q).2.1, eventEx ev ≠ some Ex.forcedUnwind) ∧
    (connectRun ConnectOutcome.cancelled lst).2.1 = some Ex.forcedUnwind ∧
    (connectRun ConnectOutcome.cancelled lst).2.2 = [] ∧
    (∀ e2, (connectRun o lst).2.1 = some e2 → e2 = Ex.forcedUnwind) ∧
    (∀ ev ∈ (connectRun o lst).2.2, eventEx ev ≠ some Ex.forcedUnwind) := by
  refine ⟨fun hex => writeItem_unwind w c st item hex,
    fun e2 he => writeItem_error_unwind w c st item e2 he,
    writeItem_events w c st item,
    fun hex => readStep_unwind rdo c q hex,
    readStep_events rdo c q,
    by simp [connectRun], by simp [connectRun], ?_, ?_⟩
  · intro e2 he
    cases o <;> simp [connectRun] at he
    exact he.symm
  · cases o <;> simp [connectRun, eventEx]

/-- Witness for C7: with oracles that always throw `forced_unwind`, a
concrete Writer step and a concrete Reader step both propagate the
cancellation unchanged. -/
theorem C7_witness :
    (writeItem (fun _ => WOutcome.throwEx Ex.forcedUnwind) 0 initState
      (WriteQueueItem.fireAndForgetQuery 0)).1 = Except.error Ex.forcedUnwind ∧
    (readStep (fun _ => ROutcome.throwEx Ex.forcedUnwind) 0
      ⟨[⟨1, ResponseAction.Ignore⟩], [], []⟩).1 = Except.error LoopExit.unwind :=
  ⟨(C7_forced_unwind_propagates (fun _ => WOutcome.throwEx Ex.forcedUnwind)
      (fun _ => ROutcome.throwEx Ex.forcedUnwind) 0 initState
      (WriteQueueItem.fireAndForgetQuery 0) ⟨[⟨1, ResponseAction.Ignore⟩], [], []⟩
      ConnectOutcome.cancelled initLifecycle).1 ⟨0, by decide, by decide, rfl⟩,
   (C7_forced_unwind_propagates (fun _ => WOutcome.throwEx Ex.forcedUnwind)
      (fun _ => ROutcome.throwEx Ex.forcedUnwind) 0 initState
      (WriteQueueItem.fireAndForgetQuery 0) ⟨[⟨1, ResponseAction.Ignore⟩], [], []⟩
      ConnectOutcome.cancelled initLifecycle).2.2.2.1 ⟨0, by decide, by decide, rfl⟩⟩

/-- C8, counterexample: the claim says a second or later call to `Start`
(in any connection state) spawns no additional connect attempt.  But the
`Defer` in `Connect` stores `m_Connected` into `m_Connecting`, so after a
FAILED connect attempt `m_Connecting` is `false` again and a later `Start`
spawns a second `Connect` coroutine: the sequence
`Start; Connect fails; Start` yields 2 connect attempts, not 1. -/
theorem C8_counterexample :
    (runLife initLifecycle [LifeEvent.startCall,
      LifeEvent.connectDone (ConnectOutcome.failure 0),
      LifeEvent.startCall]).connectAttempts = 2 ∧
    (2 : Nat) ≠ 1 := ⟨rfl, by decide⟩

/-- C8, amended: the Reader loop and the Writer loop are each spawned
exactly once across any sequence of `Start` calls and connect completions
(once `started` is set it stays set and the loop counters stay 1), and a
call to `Start` spawns no additional loop once started; `Start` spawns an
additional connect attempt exactly when `m_Connecting` is `false` at the
call — which happens again after a connect attempt finishes without
establishing the connection. -/
theorem C8_loops_once_connector_per_window :
    (∀ t : List LifeEvent,
      (runLife initLifecycle t).readLoops =
        (if (runLife initLifecycle t).started then 1 else 0) ∧
      (runLife initLifecycle t).writeLoops =
        (if (runLife initLifecycle t).started then 1 else 0)) ∧
    (∀ st : LifecycleState,
      (start st).readLoops = st.readLoops + (if st.started then 0 else 1) ∧
      (start st).writeLoops = st.writeLoops + (if st.started then 0 else 1) ∧
      (start st).connectAttempts = st.connectAttempts + (if st.connecting then 0 else 1)) ∧
    (∀ (st : LifecycleState) (code : Nat), st.connected = false →
      (connectRun (ConnectOutcome.failure code) st).1.connecting = false) := by
  refine ⟨fun t => runLife_loops t initLifecycle rfl rfl,
    fun st => ?_, fun st code hc => by simp [connectRun, hc]⟩
  obtain ⟨e1, e2, e3, _⟩ := start_loops st
  exact ⟨e1, e2, e3⟩

/-- Witness for C8's amended claim: on the empty event sequence the loop
counters match the `started` flag, and a failed connect attempt on the
inert connection resets `connecting` to `false`. -/
theorem C8_witness :
    (runLife initLifecycle []).readLoops =
      (if (runLife initLifecycle []).started then 1 else 0) ∧
    (connectRun (ConnectOutcome.failure 0) initLifecycle).1.connecting = false :=
  ⟨(C8_loops_once_connector_per_window.1 []).1,
   C8_loops_once_connector_per_window.2.2 initLifecycle 0 rfl⟩

/-- C9, counterexample: the claim says every `FutureResponseAction` ever
present has a strictly positive amount, including for bulk submissions
with an empty query list.  A `FireBulk` of zero queries succeeds trivially
and appends `{0, Ignore}` (the source appends `{item.size(), Ignore}`
unconditionally on success), a zero-amount entry. -/
theorem C9_counterexample :
    (writeItem (fun _ => WOutcome.ok) 0 initState
      (WriteQueueItem.fireAndForgetQueries [])).1 =
      Except.ok ⟨⟨[⟨0, ResponseAction.Ignore⟩], [], []⟩, true⟩ ∧
    ¬ 0 < (FutureResponseAction.mk 0 ResponseAction.Ignore).Amount := ⟨rfl, by decide⟩

/-- C9, amended: along any interleaving from the initial state in which
every bulk submission (fire-and-forget or awaiting) carries a non-empty
query list, every entry of `futureActions` has a strictly positive
amount; empty bulk submissions are the only source of zero-amount
entries. -/
theorem C9_positive_amounts_for_nonempty_submissions (w : Nat → WOutcome)
    (rdo : Nat → ROutcome) (t : List SysEvent) (st : ConnState)
    (hwf : ∀ ev ∈ t, wfEvent ev = true)
    (h : runTrace w rdo 0 0 initState t = some st) :
    ∀ a ∈ st.queues.FutureResponseActions, 0 < a.Amount :=
  runTrace_inv (fun q => ∀ a ∈ q.FutureResponseActions, 0 < a.Amount) wfEvent
    (fun w2 c st0 st2 item evs c2 hwf2 hh hp =>
      writeItem_positive w2 c st0 st2 item evs c2 hwf2 hh hp)
    (fun rdo2 c q q2 evs c2 hh hp => readStep_positive rdo2 c q q2 evs c2 hh hp)
    w rdo t 0 0 initState st hwf (by simp [initState]) h

/-- Witness for C9's amended claim: a concrete well-formed trace (one
fire-and-forget single, one non-empty awaited bulk) whose final
bookkeeping entries all have positive amounts. -/
theorem C9_witness :
    runTrace (fun _ => WOutcome.ok) (fun _ => ROutcome.ok 7) 0 0 initState
      [SysEvent.write (WriteQueueItem.fireAndForgetQuery 1),
       SysEvent.write (WriteQueueItem.getResultsOfQueries [2, 3] 8)] =
      some ⟨⟨[⟨1, ResponseAction.Ignore⟩, ⟨2, ResponseAction.DeliverBulk⟩], [], [8]⟩, true⟩ ∧
    0 < (FutureResponseAction.mk 1 ResponseAction.Ignore).Amount :=
  ⟨by decide,
   C9_positive_amounts_for_nonempty_submissions (fun _ => WOutcome.ok)
     (fun _ => ROutcome.ok 7)
     [SysEvent.write (WriteQueueItem.fireAndForgetQuery 1),
      SysEvent.write (WriteQueueItem.getResultsOfQueries [2, 3] 8)]
     ⟨⟨[⟨1, ResponseAction.Ignore⟩, ⟨2, ResponseAction.DeliverBulk⟩], [], [8]⟩, true⟩
     (by decide) (by decide) ⟨1, ResponseAction.Ignore⟩ (by decide)⟩

/-- C10: calling `GetResultsOfQueries` with an empty list of queries
completes: the Writer writes no query (the I/O counter is unchanged) and
enqueues a zero-amount `DeliverBulk` entry together with the completion
handle, and the Reader then pops both and signals the handle with the
empty reply list as a successful result. -/
theorem C10_empty_bulk_completes (w : Nat → WOutcome) (rdo : Nat → ROutcome) (c : Nat)
    (st : ConnState) (h : Nat)
    (hfa : st.queues.FutureResponseActions = [])
    (hrp : st.queues.RepliesPromises = []) :
    writeItem w c st (WriteQueueItem.getResultsOfQueries [] h) =
      (Except.ok { st with
          queues := { st.queues with
            FutureResponseActions := [⟨0, ResponseAction.DeliverBulk⟩],
            RepliesPromises := [h] },
          queuedReads := true }, [], c) ∧
    readStep rdo c { st.queues with
        FutureResponseActions := [⟨0, ResponseAction.DeliverBulk⟩],
        RepliesPromises := [h] } =
      (Except.ok { st.queues with FutureResponseActions := [], RepliesPromises := [] },
        [Event.promiseValues h []], c) := by
  constructor
  · simp [writeItem, sendAll, hfa, hrp]
  · simp [readStep, bulkReads]

/-- Witness for C10: the empty awaited bulk on the initial state enqueues
`{0, DeliverBulk}` plus handle 2 without any send, and the Reader step
delivers the empty list to handle 2. -/
theorem C10_witness :
    writeItem (fun _ => WOutcome.ok) 0 initState
      (WriteQueueItem.getResultsOfQueries [] 2) =
      (Except.ok { initState with
          queues := { initState.queues with
            FutureResponseActions := [⟨0, ResponseAction.DeliverBulk⟩],
            RepliesPromises := [2] },
          queuedReads := true }, [], 0) ∧
    readStep (fun _ => ROutcome.ok 9) 0 { initState.queues with
        FutureResponseActions := [⟨0, ResponseAction.DeliverBulk⟩],
        RepliesPromises := [2] } =
      (Except.ok { initState.queues with
          FutureResponseActions := [], RepliesPromises := [] },
        [Event.promiseValues 2 []], 0) :=
  C10_empty_bulk_completes (fun _ => WOutcome.ok) (fun _ => ROutcome.ok 9) 0
    initState 2 rfl rfl

end Redis
